import Mathlib

/-!
Verification model of pullhook (main.go): a webhook daemon that runs
`git pull` when it receives an authenticated push event.

Bytes are modelled as natural numbers (a real byte is < 256; values ≥ 256
simply classify as ill-formed leaders, which is conservative and agrees
with the Go code where such values cannot occur).  Go strings are byte
sequences, so the formatted output of pullRepo is a `List Nat`.
Machine integers (time.Duration is int64) are modelled as `Int` with
explicit wrapping where overflow can occur.
-/

/-! ### Model of Go unicode/utf8 (stdlib used by normalizeUTF8) -/

/-- Models Go `utf8.RuneError` (the replacement character U+FFFD). -/
def runeError : Nat := 0xFFFD

/-- Structural one-rune decoder, modelling the table-driven core of Go
`utf8.DecodeRune`: `some (r, size)` when the input starts with a
well-formed UTF-8 sequence encoding rune `r` in `size` bytes, `none`
when the start of the input is ill-formed (Go then reports
`(RuneError, 1)`).  The ranges are those of Go's `first`/`acceptRanges`
tables: C0/C1 and ≥ F5 are invalid leaders, E0 requires A0–BF, ED
requires 80–9F (no surrogates), F0 requires 90–BF, F4 requires 80–8F. -/
def decodeRuneCore : List Nat → Option (Nat × Nat)
  | [] => none
  | b0 :: rest =>
    if b0 < 0x80 then some (b0, 1)
    else if b0 < 0xC2 then none
    else if b0 < 0xE0 then
      match rest with
      | b1 :: _ =>
        if 0x80 ≤ b1 ∧ b1 ≤ 0xBF then some ((b0 % 32) * 64 + b1 % 64, 2) else none
      | _ => none
    else if b0 < 0xF0 then
      match rest with
      | b1 :: b2 :: _ =>
        if (if b0 = 0xE0 then 0xA0 ≤ b1 ∧ b1 ≤ 0xBF
            else if b0 = 0xED then 0x80 ≤ b1 ∧ b1 ≤ 0x9F
            else 0x80 ≤ b1 ∧ b1 ≤ 0xBF) ∧ 0x80 ≤ b2 ∧ b2 ≤ 0xBF then
          some ((b0 % 16) * 4096 + (b1 % 64) * 64 + b2 % 64, 3)
        else none
      | _ => none
    else if b0 < 0xF5 then
      match rest with
      | b1 :: b2 :: b3 :: _ =>
        if (if b0 = 0xF0 then 0x90 ≤ b1 ∧ b1 ≤ 0xBF
            else if b0 = 0xF4 then 0x80 ≤ b1 ∧ b1 ≤ 0x8F
            else 0x80 ≤ b1 ∧ b1 ≤ 0xBF) ∧ 0x80 ≤ b2 ∧ b2 ≤ 0xBF
            ∧ 0x80 ≤ b3 ∧ b3 ≤ 0xBF then
          some ((b0 % 8) * 262144 + (b1 % 64) * 4096 + (b2 % 64) * 64 + b3 % 64, 4)
        else none
      | _ => none
    else none

/-- Models Go `utf8.DecodeRune`: returns `(RuneError, 0)` on empty input,
`(RuneError, 1)` on an ill-formed start, and the decoded rune with its
size otherwise.  Note that a well-formed encoding of U+FFFD itself also
yields `(RuneError, 3)` — indistinguishable from the error cases by the
rune value alone. -/
def decodeRune (b : List Nat) : Nat × Nat :=
  match b with
  | [] => (runeError, 0)
  | _ :: _ =>
    match decodeRuneCore b with
    | none => (runeError, 1)
    | some rn => rn

/-- Fuel-driven validity scan; with fuel ≥ length it models Go
`utf8.Valid`: the input is a concatenation of well-formed sequences. -/
def validUTF8F : Nat → List Nat → Bool
  | _, [] => true
  | 0, _ :: _ => false
  | fuel + 1, b =>
    match decodeRuneCore b with
    | none => false
    | some rn => validUTF8F fuel (b.drop rn.2)

/-- Models Go `utf8.Valid`. -/
def validUTF8 (b : List Nat) : Bool := validUTF8F b.length b

/-- Fuel-driven loop of `normalizeUTF8`'s slow path (main.go lines 39-47):
repeatedly `DecodeRune`, keep the bytes of every rune that is not
`RuneError`, drop the rest. -/
def normLoopF : Nat → List Nat → List Nat
  | _, [] => []
  | 0, _ :: _ => []
  | fuel + 1, b =>
    let rn := decodeRune b
    (if rn.1 ≠ runeError then b.take rn.2 else []) ++ normLoopF fuel (b.drop rn.2)

/-- Models `normalizeUTF8` (main.go lines 35-48): valid input is returned
unchanged, otherwise the rune-by-rune filtering loop runs. -/
def normalizeUTF8 (b : List Nat) : List Nat :=
  if validUTF8 b then b else normLoopF b.length b

/-- Spec-side definition (from the claim's words, for comparison with the
code): the subsequence of `b` consisting of exactly its well-formed
units, dropping only ill-formed bytes. -/
def wellFormedSubseqF : Nat → List Nat → List Nat
  | _, [] => []
  | 0, _ :: _ => []
  | fuel + 1, b =>
    match decodeRuneCore b with
    | none => wellFormedSubseqF fuel (b.drop 1)
    | some rn => b.take rn.2 ++ wellFormedSubseqF fuel (b.drop rn.2)

/-- Spec-side: the well-formed units of `b`, in order. -/
def wellFormedSubseq (b : List Nat) : List Nat := wellFormedSubseqF b.length b

/-- The scan the slow path of `normalizeUTF8` actually performs: keep every
well-formed unit whose decoded rune is not U+FFFD. -/
def keptUnitsF : Nat → List Nat → List Nat
  | _, [] => []
  | 0, _ :: _ => []
  | fuel + 1, b =>
    match decodeRuneCore b with
    | none => keptUnitsF fuel (b.drop 1)
    | some rn =>
      (if rn.1 ≠ runeError then b.take rn.2 else []) ++ keptUnitsF fuel (b.drop rn.2)

/-- The well-formed units of `b` that do not encode U+FFFD, in order. -/
def keptUnits (b : List Nat) : List Nat := keptUnitsF b.length b

/-! ### roundTime (main.go lines 52-63) -/

/-- Wrap an unbounded integer into the int64 range, as Go arithmetic on
`time.Duration` (an int64) does. -/
def wrap64 (x : Int) : Int := (x + 2 ^ 63) % 2 ^ 64 - 2 ^ 63

/-- Go integer division truncates toward zero. -/
def goDiv (a b : Int) : Int := Int.tdiv a b

/-- Models `roundTime`: below 1ms the duration passes through; below 1s it
is rounded by add-half-then-truncate to the microsecond; otherwise to the
millisecond.  The additions wrap at the int64 boundary; the quotient
times the unit is always back in range, so no further wrap occurs. -/
def roundTime (t : Int) : Int :=
  if t < 1000000 then t
  else if t < 1000000000 then goDiv (wrap64 (t + 500)) 1000 * 1000
  else goDiv (wrap64 (t + 500000)) 1000000 * 1000000

/-! ### Model of Go time.Duration.String (used via the %s verb in pullRepo) -/

/-- Decimal digit bytes of `n` in reverse order (fuel-driven; any fuel ≥ the
digit count of `n` gives the digits of `n`). -/
def digitsRev : Nat → Nat → List Nat
  | 0, _ => []
  | fuel + 1, n => if n = 0 then [] else (48 + n % 10) :: digitsRev fuel (n / 10)

/-- Models Go time.fmtInt: decimal digit bytes of `n`, most significant
first, and the single byte "0" for zero. -/
def fmtInt (n : Nat) : List Nat := if n = 0 then [48] else (digitsRev n n).reverse

/-- Exactly `p` decimal digit bytes of `n`'s low `p` digits, most
significant first. -/
def padDigits : Nat → Nat → List Nat
  | 0, _ => []
  | p + 1, n => padDigits p (n / 10) ++ [48 + n % 10]

/-- Drop trailing zero digit bytes. -/
def stripZeros : List Nat → List Nat
  | [] => []
  | c :: cs =>
    match stripZeros cs with
    | [] => if c = 48 then [] else [c]
    | cs2 => c :: cs2

/-- Models Go time.fmtFrac: the low `prec` fractional digits of `v` with
trailing zeros removed, preceded by a dot when nonempty, paired with the
integral part `v / 10 ^ prec`. -/
def fmtFrac (v prec : Nat) : List Nat × Nat :=
  let ds := stripZeros (padDigits prec v)
  (if ds = [] then [] else 46 :: ds, v / 10 ^ prec)

/-- Models Go time.Duration.String as UTF-8 bytes (the micro sign is the
two bytes C2 B5). -/
def durationBytes (d : Int) : List Nat :=
  let u := d.natAbs
  let core :=
    if u < 1000000000 then
      if u = 0 then [48, 115]
      else if u < 1000 then fmtInt u ++ [110, 115]
      else if u < 1000000 then
        let fr := fmtFrac u 3
        fmtInt fr.2 ++ fr.1 ++ [0xC2, 0xB5, 115]
      else
        let fr := fmtFrac u 6
        fmtInt fr.2 ++ fr.1 ++ [109, 115]
    else
      let fr := fmtFrac u 9
      let secs := fr.2
      let secPart := fmtInt (secs % 60) ++ fr.1 ++ [115]
      let mins := secs / 60
      if mins = 0 then secPart
      else
        let minPart := fmtInt (mins % 60) ++ [109]
        let hours := mins / 60
        (if hours = 0 then [] else fmtInt hours ++ [104]) ++ minPart ++ secPart
  (if d < 0 then [45] else []) ++ core

/-! ### pullRepo (main.go lines 67-88) -/

/-- The error of `c.CombinedOutput()`, as pullRepo distinguishes it: an
exec.ExitError whose Sys() carries a real exit status, or any other
error (e.g. the command could not start).  `msg` is err.Error() as
bytes. -/
inductive CmdErr
  | exitStatus (code : Int) (msg : List Nat)
  | otherErr (msg : List Nat)
deriving DecidableEq

/-- The err.Error() text of the error. -/
def CmdErr.message : CmdErr → List Nat
  | .exitStatus _ m => m
  | .otherErr m => m

/-- Combined output and error of the git subprocess run. -/
structure CmdOutcome where
  out : List Nat
  err : Option CmdErr
deriving DecidableEq

/-- Bytes of an ASCII string literal. -/
def asciiBytes (s : String) : List Nat := s.data.map Char.toNat

/-- Rendering of a Go int by the %d verb. -/
def intBytes (i : Int) : List Nat := (if i < 0 then [45] else []) ++ fmtInt i.natAbs

/-- Models `pullRepo`, given the elapsed duration and the subprocess
outcome (the two ambient effects of the call): exit 0 on success, the
real exit status when available, otherwise -1; a synthesized placeholder
when a failure produced no output; the output passes through
normalizeUTF8; the success flag is err == nil. -/
def pullRepo (duration : Int) (c : CmdOutcome) : List Nat × Bool :=
  let exit : Int :=
    match c.err with
    | none => 0
    | some (.exitStatus code _) => code
    | some (.otherErr _) => -1
  let out : List Nat :=
    match c.err with
    | none => c.out
    | some e =>
      if c.out.length = 0 then asciiBytes ("<failure>\n") ++ e.message ++ asciiBytes ("\n")
      else c.out
  (asciiBytes ("$ git pull --prune --quiet  (exit:") ++ intBytes exit ++
      asciiBytes (" in ") ++ durationBytes (roundTime duration) ++ asciiBytes (")\n") ++
      normalizeUTF8 out,
    c.err.isNone)

/-! ### ServeHTTP (main.go lines 102-152) -/

/-- The parsed webhook event, as go-github's ParseWebHook returns it to
ServeHTTP: a push event (repository full name, ref, optional head
commit — absent for a branch deletion) or any other event kind. -/
inductive WebhookEvent
  | push (repoFullName ref : String) (headCommit : Option String)
  | otherKind (typeName : String)
deriving DecidableEq

/-- An inbound request as ServeHTTP observes it.  `validSignature` is the
outcome of github.ValidatePayload against the server's secret,
`eventType` is github.WebHookType, and `parseOk`/`event` the outcome of
github.ParseWebHook (consulted only on the non-ping POST path). -/
structure Request where
  method : String
  path : String
  validSignature : Bool
  eventType : String
  parseOk : Bool
  event : WebhookEvent
deriving DecidableEq

/-- Observable actions of one ServeHTTP run, in program order.  The
mutex/waitgroup constructors exist so that their (non-)use by the
handler is expressible; `runPull` marks a completed pullRepo call. -/
inductive Event
  | lockMu
  | unlockMu
  | wgAdd
  | wgDone
  | runPull
  | writeHeader (code : Nat)
  | writeBody (body : String)
deriving DecidableEq

/-- Body of the trivial acknowledgment the handler writes. -/
def ackBody : String := "\x7b\x7d"

/-- Models `server.ServeHTTP` as the ordered list of its observable
actions.  `uptime` is the rendered `time.Since(start)` (ambient clock).
A `writeHeader 200` is made explicit where net/http implies it at the
first body write.  Each guard mirrors, in source order, an early return
of the Go handler. -/
def serveHTTP (uptime : String) (r : Request) : List Event :=
  if r.path ≠ "" ∧ r.path ≠ "/" then
    [.writeHeader 404, .writeBody ("404 page not found\n")]
  else if r.method = "HEAD" then [.writeHeader 200]
  else if r.method = "GET" then [.writeHeader 200, .writeBody uptime]
  else if r.method ≠ "POST" then [.writeHeader 405, .writeBody ("Invalid method\n")]
  else if r.validSignature = false then [.writeHeader 401, .writeBody ("Invalid secret\n")]
  else if r.eventType ≠ "ping" then
    if r.parseOk = false then [.writeHeader 400, .writeBody ("Invalid payload\n")]
    else
      match r.event with
      | .push _ _ none => [.writeHeader 200, .writeBody ackBody]
      | .push _ _ (some _) => [.runPull, .writeHeader 200, .writeBody ackBody]
      | .otherKind _ => [.writeHeader 200, .writeBody ackBody]
  else [.writeHeader 200, .writeBody ackBody]

/-- Whether an action is a pullRepo run. -/
def isRunPull : Event → Bool
  | .runPull => true
  | _ => false

/-- Number of pullRepo executions caused by one request. -/
def pullCount (tr : List Event) : Nat := (tr.filter isRunPull).length

/-- The status code of an action, when it sets one. -/
def headerCode : Event → Option Nat
  | .writeHeader c => some c
  | _ => none

/-- The response status: the first header written. -/
def respStatus (tr : List Event) : Option Nat := tr.findSome? headerCode

/-- The body text of an action, when it writes one. -/
def bodyText : Event → Option String
  | .writeBody s => some s
  | _ => none

/-- The response body: the first body write (every trace has at most one). -/
def respBody (tr : List Event) : Option String := tr.findSome? bodyText

/-- The request classifications named by the spec (RequestValidator,
spec section 4.4); a spec-side decision tree mirroring the handler's
guards, for comparison with the code. -/
inductive Classification
  | notFound
  | alive
  | statusQuery
  | methodRejected
  | unauthorized
  | ping
  | badPayload
  | pushTrigger (repo ref commit : String)
  | ignored
deriving DecidableEq

/-- Spec-side classifier of a request (spec section 4.4). -/
def classify (r : Request) : Classification :=
  if r.path ≠ "" ∧ r.path ≠ "/" then .notFound
  else if r.method = "HEAD" then .alive
  else if r.method = "GET" then .statusQuery
  else if r.method ≠ "POST" then .methodRejected
  else if r.validSignature = false then .unauthorized
  else if r.eventType ≠ "ping" then
    if r.parseOk = false then .badPayload
    else
      match r.event with
      | .push _ _ none => .ignored
      | .push rn rf (some c) => .pushTrigger rn rf c
      | .otherKind _ => .ignored
  else .ping

/-- A JSON-object-shaped body: present, opening with a left brace and
closing with a right brace (the bytes 123 and 125). -/
def isObjectAck : Option String → Bool
  | none => false
  | some s => s.data.head? = some (Char.ofNat 123) ∧ s.data.getLast? = some (Char.ofNat 125)

/-! ### mainImpl and main (main.go lines 154-211) -/

/-- Which of the two watcher channels fires first in mainImpl's select:
a filesystem event on the executable, or a watch error. -/
inductive WatchSignal
  | fsEvent
  | watchErr (e : String)
deriving DecidableEq

/-- The ambient outcomes mainImpl depends on, in the order the code
consults them: os.Getwd, osext.Executable, net.Listen, then
fsnotify.NewWatcher and watcher.Add, and finally the select over the
watcher's channels. -/
structure MainEnv where
  getwdErr : Option String
  executableErr : Option String
  listenErr : Option String
  watcherNewErr : Option String
  watcherAddErr : Option String
  signal : WatchSignal
deriving DecidableEq

/-- Models `mainImpl`: `some r` means it returns with error `r` (`none`
being the nil error); `none` means it never returns (the empty select
when the watch could not be established).  The waitgroup wait before the
return always succeeds since the counter is never incremented. -/
def mainImpl (env : MainEnv) : Option (Option String) :=
  match env.getwdErr with
  | some e => some (some e)
  | none =>
    match env.executableErr with
    | some e => some (some e)
    | none =>
      match env.listenErr with
      | some e => some (some e)
      | none =>
        let werr : Option String :=
          match env.watcherNewErr with
          | some e => some e
          | none => env.watcherAddErr
        match werr with
        | some _ => none
        | none =>
          match env.signal with
          | .fsEvent => some none
          | .watchErr e => some (some e)

/-- Models `main`: the process exit status, `none` when the process never
exits on its own.  A non-nil error from mainImpl prints a diagnostic and
exits 1; a nil return exits 0. -/
def mainExit (env : MainEnv) : Option Nat :=
  match mainImpl env with
  | none => none
  | some none => some 0
  | some (some _) => some 1

/-! ### Concrete sample inputs used by witnesses and counterexamples -/

/-- A valid push-trigger POST: correct signature, push event with a head
commit. -/
def pushReq : Request :=
  ⟨"POST", "/", true, "push", true, .push ("owner/repo") ("refs/heads/main") (some ("abc123"))⟩

/-- The same push POST but with no head commit (a branch deletion). -/
def delReq : Request :=
  ⟨"POST", "/", true, "push", true, .push ("owner/repo") ("refs/heads/main") none⟩

/-- A request to a non-root path. -/
def fooReq : Request :=
  ⟨"POST", "/foo", true, "push", true, .push ("owner/repo") ("refs/heads/main") (some ("abc123"))⟩

/-- A HEAD liveness probe at the root. -/
def headReq : Request := ⟨"HEAD", "/", false, "", false, .otherKind ("")⟩

/-- A GET status query at the root. -/
def getReq : Request := ⟨"GET", "", false, "", false, .otherKind ("")⟩

/-- The banner line of a pullRepo result for a given elapsed duration and
exit code: command line, exit, rounded duration. -/
def pullBanner (d : Int) (exit : Int) : List Nat :=
  asciiBytes ("$ git pull --prune --quiet  (exit:") ++ intBytes exit ++
    asciiBytes (" in ") ++ durationBytes (roundTime d) ++ asciiBytes (")\n")

/-- An environment where every startup step succeeds and the restart
signal eventually fires. -/
def happyEnv : MainEnv := ⟨none, none, none, none, none, .fsEvent⟩

/-! ### Helper lemmas about the UTF-8 scan -/

/-- A well-formed unit is 1 to 4 bytes long and fits in the input. -/
theorem core_size (b : List Nat) (r n : Nat) (h : decodeRuneCore b = some (r, n)) :
    1 ≤ n ∧ n ≤ b.length := by
  match b with
  | [] => simp [decodeRuneCore] at h
  | b0 :: rest =>
    rcases rest with _ | ⟨b1, _ | ⟨b2, _ | ⟨b3, rest3⟩⟩⟩ <;>
      (simp only [decodeRuneCore] at h; split_ifs at h <;> simp_all <;> omega)

set_option maxHeartbeats 1000000 in
/-- Decoding looks only at the unit itself: the same unit followed by any
tail decodes identically. -/
theorem core_prefix (b t : List Nat) (r n : Nat) (h : decodeRuneCore b = some (r, n)) :
    decodeRuneCore (b.take n ++ t) = some (r, n) := by
  match b with
  | [] => simp [decodeRuneCore] at h
  | b0 :: rest =>
    rcases rest with _ | ⟨b1, _ | ⟨b2, _ | ⟨b3, rest3⟩⟩⟩ <;>
      (simp only [decodeRuneCore] at h; split_ifs at h <;>
        (simp only [Option.some.injEq, Prod.mk.injEq] at h
         obtain ⟨rfl, rfl⟩ := h
         simp only [List.take_succ_cons, List.take_zero, List.cons_append,
           List.nil_append, decodeRuneCore]
         split_ifs <;> first | rfl | omega))

/-- The validity scan does not depend on the fuel once it covers the
input. -/
theorem validUTF8F_fuel (f : Nat) : ∀ (g : Nat) (b : List Nat), b.length ≤ f →
    b.length ≤ g → validUTF8F f b = validUTF8F g b := by
  induction f with
  | zero =>
    intro g b hf _
    have hb : b = [] := by cases b <;> simp_all
    subst hb; cases g <;> rfl
  | succ f ih =>
    intro g b hf hg
    cases b with
    | nil => cases g <;> rfl
    | cons b0 rest =>
      cases g with
      | zero => simp at hg
      | succ g =>
        simp only [validUTF8F]
        cases h : decodeRuneCore (b0 :: rest) with
        | none => rfl
        | some rn =>
          have hs := core_size _ rn.1 rn.2 (by simpa using h)
          apply ih
          · simp only [List.length_drop]
            simp only [List.length_cons] at hf hs ⊢
            omega
          · simp only [List.length_drop]
            simp only [List.length_cons] at hg hs ⊢
            omega

/-- One step of the validity scan. -/
theorem validUTF8_cons (b : List Nat) (hb : b ≠ []) :
    validUTF8 b = (match decodeRuneCore b with
      | none => false
      | some rn => validUTF8 (b.drop rn.2)) := by
  cases b with
  | nil => exact absurd rfl hb
  | cons b0 rest =>
    show validUTF8F (b0 :: rest).length (b0 :: rest) = _
    simp only [List.length_cons, validUTF8F]
    cases h : decodeRuneCore (b0 :: rest) with
    | none => rfl
    | some rn =>
      have hs := core_size _ rn.1 rn.2 (by simpa using h)
      exact validUTF8F_fuel _ _ _
        (by simp only [List.length_drop, List.length_cons] at hs ⊢; omega)
        (by simp)

/-- Prepending one well-formed unit preserves validity of a tail. -/
theorem validUTF8_unit_append (b t : List Nat) (r n : Nat)
    (h : decodeRuneCore b = some (r, n)) :
    validUTF8 (b.take n ++ t) = validUTF8 t := by
  have hs := core_size _ _ _ h
  have hlen : (b.take n).length = n := by
    simp only [List.length_take]
    omega
  have hne : b.take n ++ t ≠ [] := by
    intro hcontra
    have := congrArg List.length hcontra
    simp only [List.length_append, hlen, List.length_nil] at this
    omega
  rw [validUTF8_cons _ hne, core_prefix _ t _ _ h]
  show validUTF8 ((b.take n ++ t).drop n) = _
  have key : (b.take n ++ t).drop ((b.take n).length) = t := List.drop_left _ _
  rw [hlen] at key
  rw [key]

/-- Everything the normalization loop keeps is valid UTF-8. -/
theorem normLoopF_valid (f : Nat) : ∀ b : List Nat, b.length ≤ f →
    validUTF8 (normLoopF f b) = true := by
  induction f with
  | zero =>
    intro b hf
    have hb : b = [] := by cases b <;> simp_all
    subst hb; rfl
  | succ f ih =>
    intro b hf
    cases b with
    | nil => rfl
    | cons b0 rest =>
      simp only [normLoopF]
      cases h : decodeRuneCore (b0 :: rest) with
      | none =>
        simp only [decodeRune, h, ne_eq, not_true_eq_false, if_neg, List.nil_append,
          reduceIte]
        exact ih _ (by simp only [List.length_drop, List.length_cons] at hf ⊢; omega)
      | some rn =>
        obtain ⟨r, n⟩ := rn
        have hs := core_size _ _ _ h
        have hrec : validUTF8 (normLoopF f ((b0 :: rest).drop n)) = true :=
          ih _ (by simp only [List.length_drop, List.length_cons] at hf hs ⊢; omega)
        simp only [decodeRune, h]
        by_cases hr : r = runeError
        · simp only [hr, ne_eq, not_true_eq_false, reduceIte, List.nil_append]
          exact hrec
        · simp only [ne_eq, hr, not_false_eq_true, reduceIte]
          rw [validUTF8_unit_append _ _ _ _ h]
          exact hrec

/-- The normalization loop is exactly the keep-non-U+FFFD-units scan. -/
theorem normLoopF_eq_keptUnitsF (f : Nat) : ∀ b : List Nat,
    normLoopF f b = keptUnitsF f b := by
  induction f with
  | zero => intro b; cases b <;> rfl
  | succ f ih =>
    intro b
    cases b with
    | nil => rfl
    | cons b0 rest =>
      simp only [normLoopF, keptUnitsF]
      cases h : decodeRuneCore (b0 :: rest) with
      | none =>
        simp only [decodeRune, h, ne_eq, not_true_eq_false, reduceIte, List.nil_append]
        exact ih _
      | some rn =>
        simp only [decodeRune, h, ih]

/-- The output of normalizeUTF8 is always valid UTF-8. -/
theorem normalizeUTF8_valid (b : List Nat) : validUTF8 (normalizeUTF8 b) = true := by
  unfold normalizeUTF8
  by_cases h : validUTF8 b
  · simpa [h] using h
  · simp only [h, Bool.false_eq_true, reduceIte]
    exact normLoopF_valid _ _ le_rfl

/-- C7 counterexample: on input FF EF BF BD (an ill-formed byte followed by
the well-formed encoding of U+FFFD), normalizeUTF8 returns the empty
sequence, discarding the well-formed unit EF BF BD that is present in the
input — so it is not the subsequence of the input's well-formed units. -/
theorem normalizeUTF8_drops_wellformed_replacement :
    validUTF8 [0xEF, 0xBF, 0xBD] = true
      ∧ wellFormedSubseq [0xFF, 0xEF, 0xBF, 0xBD] = [0xEF, 0xBF, 0xBD]
      ∧ normalizeUTF8 [0xFF, 0xEF, 0xBF, 0xBD] = []
      ∧ normalizeUTF8 [0xFF, 0xEF, 0xBF, 0xBD]
          ≠ wellFormedSubseq [0xFF, 0xEF, 0xBF, 0xBD] := by
  decide

/-- C7 (amended): normalizeUTF8 always returns well-formed UTF-8; a fully
valid input is returned unchanged; an input with any ill-formed unit is
reduced to its well-formed units in order, except that well-formed
encodings of U+FFFD are then also discarded. -/
theorem normalizeUTF8_spec (b : List Nat) :
    validUTF8 (normalizeUTF8 b) = true
      ∧ (validUTF8 b = true → normalizeUTF8 b = b)
      ∧ (validUTF8 b = false → normalizeUTF8 b = keptUnits b) := by
  refine ⟨normalizeUTF8_valid b, ?_, ?_⟩
  · intro h
    simp [normalizeUTF8, h]
  · intro h
    simp only [normalizeUTF8, h, Bool.false_eq_true, reduceIte]
    exact normLoopF_eq_keptUnitsF _ _

/-- C7 witness: a concrete invalid input where the amended description is
discharged. -/
theorem normalizeUTF8_spec_witness :
    validUTF8 [65, 255, 66] = false ∧ normalizeUTF8 [65, 255, 66] = keptUnits [65, 255, 66] :=
  ⟨by decide, (normalizeUTF8_spec [65, 255, 66]).2.2 (by decide)⟩

/-- C9 counterexample: at the largest int64 duration the add-half step
overflows, so the result is not the mathematically nearest millisecond
(which would be 9223372036855000000) but a large negative number. -/
theorem roundTime_overflow_counterexample :
    roundTime 9223372036854775807 ≠ 9223372036855000000
      ∧ roundTime 9223372036854775807 = -9223372036854000000 := by
  constructor
  · decide
  · decide

/-- C9 (amended): below 1ms every duration passes through unchanged; in
[1ms, 1s) the result is the nearest microsecond, half away from zero, by
add-half-then-truncate; at and above 1s, as long as adding the half
millisecond does not overflow int64, the result is the nearest
millisecond, half away from zero. -/
theorem roundTime_tiers (t : Int) :
    (t < 1000000 → roundTime t = t)
      ∧ (1000000 ≤ t → t < 1000000000 →
          roundTime t = goDiv (t + 500) 1000 * 1000
            ∧ (1000 : Int) ∣ roundTime t
            ∧ (roundTime t - t).natAbs ≤ 500
            ∧ (t % 1000 = 500 → roundTime t = t + 500))
      ∧ (1000000000 ≤ t → t ≤ 9223372036854275807 →
          roundTime t = goDiv (t + 500000) 1000000 * 1000000
            ∧ (1000000 : Int) ∣ roundTime t
            ∧ (roundTime t - t).natAbs ≤ 500000
            ∧ (t % 1000000 = 500000 → roundTime t = t + 500000)) := by
  refine ⟨fun h => by simp [roundTime, h], fun h1 h2 => ?_, fun h1 h2 => ?_⟩
  · have hw : wrap64 (t + 500) = t + 500 := by unfold wrap64; omega
    have ht : goDiv (t + 500) 1000 = (t + 500) / 1000 :=
      Int.tdiv_eq_ediv (by omega) (by omega)
    have hr : roundTime t = (t + 500) / 1000 * 1000 := by
      unfold roundTime
      rw [if_neg (by omega), if_pos h2, hw, ht]
    refine ⟨by rw [hr, ← ht], ?_, ?_, ?_⟩ <;> rw [hr] <;> omega
  · have hw : wrap64 (t + 500000) = t + 500000 := by unfold wrap64; omega
    have ht : goDiv (t + 500000) 1000000 = (t + 500000) / 1000000 :=
      Int.tdiv_eq_ediv (by omega) (by omega)
    have hr : roundTime t = (t + 500000) / 1000000 * 1000000 := by
      unfold roundTime
      rw [if_neg (by omega), if_neg (by omega), hw, ht]
    refine ⟨by rw [hr, ← ht], ?_, ?_, ?_⟩ <;> rw [hr] <;> omega

/-- C9 witness: the three tiers at concrete inputs. -/
theorem roundTime_tiers_witness :
    roundTime 999999 = 999999
      ∧ roundTime 1500400 = 1500000
      ∧ roundTime 1499999999 = 1500000000 := by
  refine ⟨(roundTime_tiers 999999).1 (by decide), ?_, ?_⟩
  · have h := ((roundTime_tiers 1500400).2.1 (by decide) (by decide)).1
    rw [h]; decide
  · have h := ((roundTime_tiers 1499999999).2.2 (by decide) (by decide)).1
    rw [h]; decide

/-- C1 (code bug evidence): at a valid push-trigger request the handler
runs pullRepo to completion before writing its 200 acknowledgment — the
dispatch is synchronous, although the code's own comments promise an
asynchronous start. -/
theorem serveHTTP_pull_precedes_response :
    serveHTTP ("") pushReq = [.runPull, .writeHeader 200, .writeBody ackBody] := by
  decide

/-- C2 (code bug evidence): no request handling ever acquires the server's
mutual-exclusion gate, so nothing serializes concurrent pullRepo runs. -/
theorem serveHTTP_never_locks_gate (u : String) (r : Request) :
    Event.lockMu ∉ serveHTTP u r := by
  obtain ⟨m, p, vs, et, po, ev⟩ := r
  cases ev with
  | push rn rf hc =>
    cases hc <;> (unfold serveHTTP; split_ifs <;> simp)
  | otherKind tn =>
    unfold serveHTTP; split_ifs <;> simp

/-- C4 (code bug evidence): no request handling ever increments or
decrements the outstanding-task counter. -/
theorem serveHTTP_never_touches_counter (u : String) (r : Request) :
    Event.wgAdd ∉ serveHTTP u r ∧ Event.wgDone ∉ serveHTTP u r := by
  obtain ⟨m, p, vs, et, po, ev⟩ := r
  cases ev with
  | push rn rf hc =>
    cases hc <;> (unfold serveHTTP; split_ifs <;> simp)
  | otherKind tn =>
    unfold serveHTTP; split_ifs <;> simp

/-- C3: a correctly signed POST at the root whose body parses as a push
event causes exactly one pullRepo execution when a head commit is
present and zero when it is absent. -/
theorem serveHTTP_push_pull_count (u : String) (r : Request) (rn rf : String)
    (hc : Option String)
    (hpath : r.path = "" ∨ r.path = "/") (hm : r.method = "POST")
    (hsig : r.validSignature = true) (het : r.eventType ≠ "ping")
    (hpo : r.parseOk = true) (hev : r.event = .push rn rf hc) :
    pullCount (serveHTTP u r) = (match hc with | some _ => 1 | none => 0) := by
  obtain ⟨m, p, vs, et, po, ev⟩ := r
  simp only at hpath hm hsig het hpo hev
  subst hm hsig hpo hev
  unfold serveHTTP
  rw [if_neg (by rcases hpath with h | h <;> simp [h])]
  rw [if_neg (by simp), if_neg (by simp), if_neg (by simp), if_neg (by simp),
    if_pos het]
  simp only [Bool.true_eq_false, reduceIte]
  cases hc <;> simp [pullCount, isRunPull]

/-- C3 witness: the two concrete push requests. -/
theorem serveHTTP_push_pull_count_witness :
    pullCount (serveHTTP ("") pushReq) = 1 ∧ pullCount (serveHTTP ("") delReq) = 0 :=
  ⟨serveHTTP_push_pull_count ("") pushReq ("owner/repo") ("refs/heads/main")
      (some ("abc123")) (Or.inr rfl) rfl rfl (by decide) rfl rfl,
    serveHTTP_push_pull_count ("") delReq ("owner/repo") ("refs/heads/main")
      none (Or.inr rfl) rfl rfl (by decide) rfl rfl⟩

/-- C8: any request whose path is neither empty nor the root slash gets
exactly the 404 trace, with no pullRepo execution. -/
theorem serveHTTP_non_root_not_found (u : String) (r : Request)
    (h1 : r.path ≠ "") (h2 : r.path ≠ "/") :
    serveHTTP u r = [.writeHeader 404, .writeBody ("404 page not found\n")]
      ∧ respStatus (serveHTTP u r) = some 404
      ∧ pullCount (serveHTTP u r) = 0 := by
  have htr : serveHTTP u r = [.writeHeader 404, .writeBody ("404 page not found\n")] := by
    unfold serveHTTP
    rw [if_pos ⟨h1, h2⟩]
  refine ⟨htr, ?_, ?_⟩ <;> rw [htr] <;> rfl

/-- C8 witness: the non-root POST. -/
theorem serveHTTP_non_root_not_found_witness :
    serveHTTP ("") fooReq = [.writeHeader 404, .writeBody ("404 page not found\n")]
      ∧ pullCount (serveHTTP ("") fooReq) = 0 :=
  ⟨(serveHTTP_non_root_not_found ("") fooReq (by decide) (by decide)).1,
    (serveHTTP_non_root_not_found ("") fooReq (by decide) (by decide)).2.2⟩

/-- C5 counterexample: the HEAD liveness probe is classified Alive and
answered 200, but its response has no body at all — not a
JSON-object-shaped acknowledgment. -/
theorem serveHTTP_head_no_object_body :
    classify headReq = Classification.alive
      ∧ respStatus (serveHTTP ("") headReq) = some 200
      ∧ respBody (serveHTTP ("") headReq) = none
      ∧ isObjectAck (respBody (serveHTTP ("") headReq)) = false := by
  decide

/-- C5 (amended): every classification other than
NotFound/MethodRejected/Unauthorized/BadPayload is answered 200; Ping,
PushTrigger and Ignored get the two-byte object body, Alive gets no
body, StatusQuery gets the uptime text. -/
theorem serveHTTP_ok_responses (u : String) (r : Request)
    (h1 : classify r ≠ .notFound) (h2 : classify r ≠ .methodRejected)
    (h3 : classify r ≠ .unauthorized) (h4 : classify r ≠ .badPayload) :
    respStatus (serveHTTP u r) = some 200
      ∧ respBody (serveHTTP u r) =
          (match classify r with
           | .alive => none
           | .statusQuery => some u
           | _ => some ackBody) := by
  obtain ⟨m, p, vs, et, po, ev⟩ := r
  by_cases hp : p ≠ "" ∧ p ≠ "/"
  · exact absurd (by unfold classify; rw [if_pos hp]) h1
  by_cases hh : m = "HEAD"
  · have hcl : classify ⟨m, p, vs, et, po, ev⟩ = .alive := by
      unfold classify; rw [if_neg hp, if_pos hh]
    have htr : serveHTTP u ⟨m, p, vs, et, po, ev⟩ = [.writeHeader 200] := by
      unfold serveHTTP; rw [if_neg hp, if_pos hh]
    rw [htr, hcl]
    exact ⟨rfl, rfl⟩
  by_cases hg : m = "GET"
  · have hcl : classify ⟨m, p, vs, et, po, ev⟩ = .statusQuery := by
      unfold classify; rw [if_neg hp, if_neg hh, if_pos hg]
    have htr : serveHTTP u ⟨m, p, vs, et, po, ev⟩ = [.writeHeader 200, .writeBody u] := by
      unfold serveHTTP; rw [if_neg hp, if_neg hh, if_pos hg]
    rw [htr, hcl]
    exact ⟨rfl, rfl⟩
  by_cases hpost : m ≠ "POST"
  · exact absurd (by unfold classify; rw [if_neg hp, if_neg hh, if_neg hg, if_pos hpost]) h2
  by_cases hvs : vs = false
  · exact absurd
      (by unfold classify; rw [if_neg hp, if_neg hh, if_neg hg, if_neg hpost, if_pos hvs]) h3
  by_cases hping : et ≠ "ping"
  · by_cases hpo : po = false
    · exact absurd
        (by
          unfold classify
          rw [if_neg hp, if_neg hh, if_neg hg, if_neg hpost, if_neg hvs, if_pos hping,
            if_pos hpo]) h4
    · cases ev with
      | push rn rf hc =>
        cases hc with
        | none =>
          have hcl : classify ⟨m, p, vs, et, po, .push rn rf none⟩ = .ignored := by
            unfold classify
            rw [if_neg hp, if_neg hh, if_neg hg, if_neg hpost, if_neg hvs, if_pos hping,
              if_neg hpo]
          have htr : serveHTTP u ⟨m, p, vs, et, po, .push rn rf none⟩ =
              [.writeHeader 200, .writeBody ackBody] := by
            unfold serveHTTP
            rw [if_neg hp, if_neg hh, if_neg hg, if_neg hpost, if_neg hvs, if_pos hping,
              if_neg hpo]
          rw [htr, hcl]
          exact ⟨rfl, rfl⟩
        | some cmt =>
          have hcl : classify ⟨m, p, vs, et, po, .push rn rf (some cmt)⟩ =
              .pushTrigger rn rf cmt := by
            unfold classify
            rw [if_neg hp, if_neg hh, if_neg hg, if_neg hpost, if_neg hvs, if_pos hping,
              if_neg hpo]
          have htr : serveHTTP u ⟨m, p, vs, et, po, .push rn rf (some cmt)⟩ =
              [.runPull, .writeHeader 200, .writeBody ackBody] := by
            unfold serveHTTP
            rw [if_neg hp, if_neg hh, if_neg hg, if_neg hpost, if_neg hvs, if_pos hping,
              if_neg hpo]
          rw [htr, hcl]
          exact ⟨rfl, rfl⟩
      | otherKind tn =>
        have hcl : classify ⟨m, p, vs, et, po, .otherKind tn⟩ = .ignored := by
          unfold classify
          rw [if_neg hp, if_neg hh, if_neg hg, if_neg hpost, if_neg hvs, if_pos hping,
            if_neg hpo]
        have htr : serveHTTP u ⟨m, p, vs, et, po, .otherKind tn⟩ =
            [.writeHeader 200, .writeBody ackBody] := by
          unfold serveHTTP
          rw [if_neg hp, if_neg hh, if_neg hg, if_neg hpost, if_neg hvs, if_pos hping,
            if_neg hpo]
        rw [htr, hcl]
        exact ⟨rfl, rfl⟩
  · have hcl : classify ⟨m, p, vs, et, po, ev⟩ = .ping := by
      unfold classify
      rw [if_neg hp, if_neg hh, if_neg hg, if_neg hpost, if_neg hvs, if_neg hping]
    have htr : serveHTTP u ⟨m, p, vs, et, po, ev⟩ =
        [.writeHeader 200, .writeBody ackBody] := by
      unfold serveHTTP
      rw [if_neg hp, if_neg hh, if_neg hg, if_neg hpost, if_neg hvs, if_neg hping]
    rw [htr, hcl]
    exact ⟨rfl, rfl⟩

/-- C5 witness: the GET status query. -/
theorem serveHTTP_ok_responses_witness :
    respStatus (serveHTTP ("1m30s") getReq) = some 200
      ∧ respBody (serveHTTP ("1m30s") getReq) = some ("1m30s") :=
  serveHTTP_ok_responses ("1m30s") getReq (by decide) (by decide) (by decide) (by decide)

/-- C6: pullRepo is total on every subprocess outcome: the success flag is
exactly err == nil; exit 0 on success; the real exit status when
available, otherwise -1; an empty failure output is replaced by the
placeholder embedding the error text; the output is sanitized by
normalizeUTF8 before inclusion after the banner. -/
theorem pullRepo_spec (d : Int) (c : CmdOutcome) :
    (pullRepo d c).2 = c.err.isNone
      ∧ (c.err = none → (pullRepo d c).1 = pullBanner d 0 ++ normalizeUTF8 c.out)
      ∧ (∀ code m, c.err = some (.exitStatus code m) →
          (pullRepo d c).1 = pullBanner d code ++ normalizeUTF8
            (if c.out = [] then asciiBytes ("<failure>\n") ++ m ++ asciiBytes ("\n")
             else c.out))
      ∧ (∀ m, c.err = some (.otherErr m) →
          (pullRepo d c).1 = pullBanner d (-1) ++ normalizeUTF8
            (if c.out = [] then asciiBytes ("<failure>\n") ++ m ++ asciiBytes ("\n")
             else c.out)) := by
  obtain ⟨out, err⟩ := c
  refine ⟨rfl, ?_, ?_, ?_⟩
  · intro h
    simp only at h
    subst h
    simp [pullRepo, pullBanner, List.append_assoc]
  · intro code m h
    simp only at h
    subst h
    simp [pullRepo, pullBanner, CmdErr.message, List.append_assoc,
      List.length_eq_zero]
  · intro m h
    simp only at h
    subst h
    simp [pullRepo, pullBanner, CmdErr.message, List.append_assoc,
      List.length_eq_zero]

/-- C6 witness: a successful run with plain output. -/
theorem pullRepo_spec_witness :
    (pullRepo 250 ⟨asciiBytes ("ok"), none⟩).1 =
      pullBanner 250 0 ++ normalizeUTF8 (asciiBytes ("ok")) :=
  (pullRepo_spec 250 ⟨asciiBytes ("ok"), none⟩).2.1 rfl

/-- C10: when startup and the watch succeed and the restart signal fires,
mainImpl returns the nil error and the process exits 0; the process
exits 1 exactly when mainImpl returns a non-nil error, as it does for a
working-directory failure or a watcher channel error. -/
theorem mainImpl_exit_spec (env : MainEnv) :
    (env.getwdErr = none → env.executableErr = none → env.listenErr = none →
        env.watcherNewErr = none → env.watcherAddErr = none →
        env.signal = .fsEvent → mainImpl env = some none ∧ mainExit env = some 0)
      ∧ (mainExit env = some 1 ↔ ∃ e, mainImpl env = some (some e))
      ∧ (∀ e, env.getwdErr = some e → mainImpl env = some (some e) ∧ mainExit env = some 1)
      ∧ (∀ e, env.getwdErr = none → env.executableErr = none → env.listenErr = none →
          env.watcherNewErr = none → env.watcherAddErr = none →
          env.signal = .watchErr e →
          mainImpl env = some (some e) ∧ mainExit env = some 1) := by
  obtain ⟨g, x, l, wn, wa, s⟩ := env
  cases g <;> cases x <;> cases l <;> cases wn <;> cases wa <;> cases s <;>
    simp [mainImpl, mainExit]

/-- C10 witness: the all-success environment with a restart signal, and a
failed working-directory resolution. -/
theorem mainImpl_exit_spec_witness :
    mainExit happyEnv = some 0
      ∧ mainExit ⟨some ("no such directory"), none, none, none, none, .fsEvent⟩ = some 1 :=
  ⟨((mainImpl_exit_spec happyEnv).1 rfl rfl rfl rfl rfl rfl).2,
    ((mainImpl_exit_spec ⟨some ("no such directory"), none, none, none, none, .fsEvent⟩).2.2.1
      ("no such directory") rfl).2⟩
